import Mathlib

/-!
Verification of the recipeManagement repository's calculator service
(`services/calculator-service/app/services/calculation_service.py`) and of
the recipe-service graph store invariant (`services/recipe-service`).

Conventions of the shallow embedding:
* Python `Decimal`/`float` quantities are modelled as exact rationals `ℚ`
  (the service converts every quantity through `Decimal(str(q))` before
  arithmetic, so decimal literals are represented exactly).
* Python dicts with fixed key sets are modelled as structures; a key read
  with `dict.get(k, default)` is modelled as an `Option` field read with
  `Option.getD default`.
* A Python function that may raise is modelled as returning `Except`.
* Wall-clock fields (`calculation_time_ms`, timing entries of the batch
  summary) are not represented: they carry no logical content.
-/

namespace RecipeMgmt

/-! ## Decimal rounding primitives

`decimal.Decimal.quantize(..., rounding=ROUND_HALF_UP)` rounds half away
from zero; Python's builtin `round(x, n)` rounds half to even. -/

/-- Model of `Decimal.quantize(Decimal('1'), rounding=ROUND_HALF_UP)`:
round to the nearest integer, ties away from zero. -/
def roundHalfUpInt (q : ℚ) : ℤ :=
  if 0 ≤ q then ⌊q + 1/2⌋ else -⌊-q + 1/2⌋

/-- Model of `Decimal.quantize` with `ROUND_HALF_UP` at `places` decimal
places. -/
def quantizeHalfUp (q : ℚ) (places : ℕ) : ℚ :=
  (roundHalfUpInt (q * 10 ^ places) : ℚ) / 10 ^ places

/-- Round to the nearest integer, ties to even — the rounding used by
Python's builtin `round`. -/
def roundHalfEvenInt (q : ℚ) : ℤ :=
  if q - ⌊q⌋ < 1/2 then ⌊q⌋
  else if 1/2 < q - ⌊q⌋ then ⌊q⌋ + 1
  else if Even ⌊q⌋ then ⌊q⌋ else ⌊q⌋ + 1

/-- Model of Python `round(q, ndigits)` for a nonnegative digit count. -/
def pyRound (q : ℚ) (ndigits : ℕ) : ℚ :=
  (roundHalfEvenInt (q * 10 ^ ndigits) : ℚ) / 10 ^ ndigits

/-! ## CalculationService configuration

Fields of `CalculationService.__init__` / `_get_config`
(`calculation_service.py` lines 25-40), with the defaults of
`app/config.py`. -/

structure CalcConfig where
  precision_places : ℤ := 3
  max_scale_factor : ℚ := 1000
  min_scale_factor : ℚ := 1/1000
  max_ingredients : ℕ := 1000
  cache_enabled : Bool := true
deriving Repr

/-! ## `_round_quantity` (calculation_service.py lines 68-100) -/

/-- The `else:  # gram` branch of `_round_quantity`: round at `precision`
decimal places (`places = '0.' + '0' * (precision - 1) + '1'`; for a
non-positive precision the string degenerates to `'0.1'`, i.e. one place). -/
def roundGram (q : ℚ) (precision : ℤ) : ℚ :=
  if precision = 0 then quantizeHalfUp q 0
  else quantizeHalfUp q (max precision 1).toNat

/-- Model of `CalculationService._round_quantity`.  `precision = none`
models the Python default `None`, resolved to `self.precision_places`. -/
def roundQuantity (cfg : CalcConfig) (q : ℚ) (unit : String)
    (precision : Option ℤ) : ℚ :=
  let p := precision.getD cfg.precision_places
  if unit = "piece" then
    if 1 ≤ q then quantizeHalfUp q 0 else quantizeHalfUp q 1
  else
    roundGram q p

/-! ## Error taxonomy (`app/utils/exceptions.py`)

Each constructor corresponds to one `raise` site of the calculator
service; the constructor arguments are the data interpolated into the
exception message.  `fetchFailed` and `calculationFailed` are the two
`raise CalculationError(...)` wrappers of `calculate_recipe`'s `except`
clauses (lines 383-398); `cacheFailure` models an exception raised by the
Redis-backed `cache` extension object itself. -/

inductive CalcErr where
  | invalidInputOriginalNonpositive (q : ℚ)
  | invalidInputTargetNonpositive (q : ℚ)
  | invalidInputUnitMismatch (originalUnit targetUnit : String)
  | scaleFactorNonpositive (f : ℚ)
  | scaleFactorTooLarge (f maxAllowed : ℚ)
  | scaleFactorTooSmall (f minAllowed : ℚ)
  | recipeNotFound (productId : String)
  | maxIngredientsExceeded (maxIngredients : ℕ)
  | fetchFailed (message : String)
  | cacheFailure (message : String)
  | calculationFailed (inner : CalcErr)
deriving Repr, DecidableEq

/-- Model of `isinstance(e, InvalidInputError)`: true exactly for the errors raised
as `InvalidInputError` in `_calculate_scale_factor`.  The wrapper
`CalculationError` raised by `calculate_recipe`'s blanket handler is the
base class, not an `InvalidInputError`. -/
def CalcErr.isInvalidInputError : CalcErr → Bool
  | .invalidInputOriginalNonpositive _ => true
  | .invalidInputTargetNonpositive _ => true
  | .invalidInputUnitMismatch _ _ => true
  | _ => false

/-! ## `_validate_scale_factor` and `_calculate_scale_factor`
(calculation_service.py lines 102-155) -/

/-- Model of `_validate_scale_factor`.  The `isinstance` part of the first
check is vacuous here because `ℚ` only models numbers. -/
def validateScaleFactor (cfg : CalcConfig) (sf : ℚ) : Except CalcErr Unit :=
  if sf ≤ 0 then .error (.scaleFactorNonpositive sf)
  else if cfg.max_scale_factor < sf then
    .error (.scaleFactorTooLarge sf cfg.max_scale_factor)
  else if sf < cfg.min_scale_factor then
    .error (.scaleFactorTooSmall sf cfg.min_scale_factor)
  else .ok ()

/-- Model of `_calculate_scale_factor`. -/
def calculateScaleFactor (cfg : CalcConfig) (originalQuantity : ℚ)
    (originalUnit : String) (targetQuantity : ℚ) (targetUnit : String) :
    Except CalcErr ℚ :=
  if originalQuantity ≤ 0 then
    .error (.invalidInputOriginalNonpositive originalQuantity)
  else if targetQuantity ≤ 0 then
    .error (.invalidInputTargetNonpositive targetQuantity)
  else if originalUnit ≠ targetUnit then
    .error (.invalidInputUnitMismatch originalUnit targetUnit)
  else
    let sf := targetQuantity / originalQuantity
    match validateScaleFactor cfg sf with
    | .error e => .error e
    | .ok _ => .ok sf

/-! ## Recipe data as served by the recipe client

Shape of the dict returned by `get_recipe_client().get_recipe(product_id)`
as consumed by `calculation_service.py` (keys read via `[]` are plain
fields, keys read via `.get(k, default)` are `Option` fields). -/

structure ProductInfo where
  name : String
  ptype : String
deriving Repr, DecidableEq

structure Ingredient where
  product_id : String
  product_name : String
  quantity : ℚ
  unit : String
  order : ℤ
deriving Repr, DecidableEq

structure RecipeData where
  product : Option ProductInfo
  yield_quantity : Option ℚ
  yield_unit : Option String
  ingredients : List Ingredient
deriving Repr, DecidableEq

/-- The recipe client: `get_recipe` either raises `RecipeServiceError`
(`.error msg`), returns no recipe (`.ok none`) or returns recipe data. -/
structure Env where
  fetchRecipe : String → Except String (Option RecipeData)

/-! ## `_scale_ingredient` and `_scale_recipe_ingredients`
(calculation_service.py lines 157-212) -/

/-- A scaled ingredient as emitted by `_scale_ingredient`: the original
and the calculated (rounded) quantity. -/
structure ScaledIngredient where
  product_id : String
  product_name : String
  original_quantity : ℚ
  calculated_quantity : ℚ
  unit : String
  order : ℤ
deriving Repr, DecidableEq

/-- Model of `_scale_ingredient` (returns the result dict of lines
178-185). -/
def scaleIngredientD (cfg : CalcConfig) (ing : Ingredient) (scaleFactor : ℚ)
    (precision : Option ℤ) : ScaledIngredient :=
  { product_id := ing.product_id
    product_name := ing.product_name
    original_quantity := ing.quantity
    calculated_quantity :=
      roundQuantity cfg (ing.quantity * scaleFactor) ing.unit precision
    unit := ing.unit
    order := ing.order }

/-- Model of `_scale_recipe_ingredients`. -/
def scaleRecipeIngredients (cfg : CalcConfig) (recipe : RecipeData)
    (scaleFactor : ℚ) (precision : Option ℤ) :
    Except CalcErr (List ScaledIngredient) :=
  if cfg.max_ingredients < recipe.ingredients.length then
    .error (.maxIngredientsExceeded cfg.max_ingredients)
  else
    .ok (recipe.ingredients.map (fun i => scaleIngredientD cfg i scaleFactor precision))

/-! ## `_expand_hierarchical_recipe` (calculation_service.py lines 214-279)

An expanded entry is the scaled-ingredient dict, optionally extended (lines
266-268) with the keys `sub_ingredients`, `expanded = True` and
`depth = current_depth`; `leaf` models a dict without those keys. -/

inductive ExpIngredient where
  | leaf (base : ScaledIngredient)
  | node (base : ScaledIngredient) (sub_ingredients : List ExpIngredient) (depth : ℕ)
deriving Repr

/-- The scaled-ingredient part of an expanded entry. -/
def ExpIngredient.base : ExpIngredient → ScaledIngredient
  | .leaf b => b
  | .node b _ _ => b

/-- Whether the entry carries the `expanded`/`sub_ingredients`/`depth`
marker keys. -/
def ExpIngredient.isExpanded : ExpIngredient → Bool
  | .leaf _ => false
  | .node _ _ _ => true

/-- The per-ingredient body of `_expand_hierarchical_recipe`'s loop
(lines 240-277): scale the ingredient; when it resolves to a
`semi-product` recipe with positive yield, expand that sub-recipe through
`expandSub` (the recursion at `current_depth + 1`) and attach the
`sub_ingredients`/`expanded`/`depth` keys; a fetch error
(`RecipeServiceError`) or a missing/non-semi-product/zero-yield recipe
leaves the ingredient as a plain entry. -/
def expandOneIngredient (env : Env) (cfg : CalcConfig)
    (expandSub : RecipeData → ℚ → Except CalcErr (List ExpIngredient))
    (ing : Ingredient) (scaleFactor : ℚ) (currentDepth : ℕ)
    (precision : Option ℤ) : Except CalcErr ExpIngredient :=
  let scaled := scaleIngredientD cfg ing scaleFactor precision
  match env.fetchRecipe ing.product_id with
  | .error _ => .ok (.leaf scaled)
  | .ok none => .ok (.leaf scaled)
  | .ok (some subRecipe) =>
    if (subRecipe.product.map ProductInfo.ptype).getD "" = "semi-product" then
      if 0 < subRecipe.yield_quantity.getD 1 then
        match expandSub subRecipe
            (scaled.calculated_quantity / subRecipe.yield_quantity.getD 1) with
        | .error e => .error e
        | .ok subs => .ok (.node scaled subs currentDepth)
      else .ok (.leaf scaled)
    else .ok (.leaf scaled)

/-- The `for ingredient in ingredients:` loop of
`_expand_hierarchical_recipe` (an exception from any iteration aborts the
whole loop). -/
def expandIngredientList (env : Env) (cfg : CalcConfig)
    (expandSub : RecipeData → ℚ → Except CalcErr (List ExpIngredient)) :
    List Ingredient → ℚ → ℕ → Option ℤ → Except CalcErr (List ExpIngredient)
  | [], _, _, _ => .ok []
  | ing :: rest, scaleFactor, currentDepth, precision =>
    match expandOneIngredient env cfg expandSub ing scaleFactor
        currentDepth precision with
    | .error e => .error e
    | .ok item =>
      match expandIngredientList env cfg expandSub rest scaleFactor
          currentDepth precision with
      | .error e => .error e
      | .ok others => .ok (item :: others)

/-- Model of `_expand_hierarchical_recipe`.  The recursion guard is
`current_depth >= max_depth` and each recursive call passes
`current_depth + 1`; the embedding recurses structurally on the remaining
budget `fuel = max_depth - current_depth` (the guard fires exactly at
`fuel = 0`) next to the faithful `current_depth` counter. -/
def expandHierarchicalRecipe (env : Env) (cfg : CalcConfig)
    (recipe : RecipeData) (scaleFactor : ℚ) (fuel : ℕ) (currentDepth : ℕ)
    (precision : Option ℤ) : Except CalcErr (List ExpIngredient) :=
  match fuel with
  | 0 =>
    (scaleRecipeIngredients cfg recipe scaleFactor precision).map
      (fun l => l.map ExpIngredient.leaf)
  | n + 1 =>
    expandIngredientList env cfg
      (fun subRecipe subScaleFactor =>
        expandHierarchicalRecipe env cfg subRecipe subScaleFactor n
          (currentDepth + 1) precision)
      recipe.ingredients scaleFactor currentDepth precision

/-! ## `_generate_cache_key` (calculation_service.py lines 42-66)

The source serializes the dict below with `json.dumps(..., sort_keys=True)`
and MD5-hexes the string.  The embedding keeps the hashed data itself: the
hash is a deterministic function of it, and (MD5 collisions aside) two
keys coincide exactly when the data does.  Note that `precision` is not
among the hashed fields. -/

structure CacheKeyData where
  product_id : String
  target_quantity : ℚ
  target_unit : String
  include_hierarchy : Bool
  max_depth : ℤ
  version : String
deriving Repr, DecidableEq

/-- Model of `_generate_cache_key`. -/
def generateCacheKey (productId : String) (targetQuantity : ℚ)
    (targetUnit : String) (includeHierarchy : Bool) (maxDepth : ℤ) :
    CacheKeyData :=
  { product_id := productId
    target_quantity := targetQuantity
    target_unit := targetUnit
    include_hierarchy := includeHierarchy
    max_depth := maxDepth
    version := "v1" }

/-! ## `calculate_recipe` (calculation_service.py lines 281-398) -/

/-- A calculation request, with the dict keys `calculate_batch` reads
(`max_depth` defaults to 5, `precision` to `None`). -/
structure CalcRequest where
  product_id : String
  target_quantity : ℚ
  target_unit : String
  include_hierarchy : Bool := false
  max_depth : ℤ := 5
  precision : Option ℤ := none
deriving Repr, DecidableEq

/-- The `calculation_metadata` dict of the result (lines 356-362).  Note
the Python idiom `precision or self.precision_places`: an explicit
`precision = 0` is falsy and is reported as the default. -/
structure CalcMetadata where
  include_hierarchy : Bool
  max_depth : ℤ
  precision : ℤ
  ingredient_count : ℕ
  algorithm_version : String
deriving Repr, DecidableEq

/-- The calculation result dict (lines 347-365), minus the wall-clock
`calculation_time_ms` field. -/
structure CalcResult where
  product_id : String
  product_name : String
  target_quantity : ℚ
  target_unit : String
  scale_factor : ℚ
  original_yield : ℚ
  original_yield_unit : String
  ingredients : List ExpIngredient
  calculation_metadata : CalcMetadata
  cached : Bool
deriving Repr

/-- The cache extension object (`from ..extensions import cache`, a
Redis-backed Flask-Caching client), as an interface over an abstract
store state `σ`: `get`/`set` may raise (`.error msg`). -/
structure CacheOps (σ : Type) where
  get : σ → CacheKeyData → Except String (Option CalcResult)
  set : σ → CacheKeyData → CalcResult → Except String σ

/-- The body of `calculate_recipe`'s `try:` block up to the construction
of `result` (lines 321-365): fetch the recipe, compute the scale factor,
scale (or hierarchically expand) the ingredients and assemble the result
dict.  Every exception of the block surfaces through the two `except`
clauses (lines 383-398): a `RecipeServiceError` becomes
`CalculationError("Failed to fetch recipe data: ...")` (`fetchFailed`),
anything else becomes `CalculationError("Calculation failed: ...")`
(`calculationFailed`). -/
def computeResult (env : Env) (cfg : CalcConfig) (req : CalcRequest) :
    Except CalcErr CalcResult :=
  match env.fetchRecipe req.product_id with
  | .error m => .error (.fetchFailed m)
  | .ok none => .error (.calculationFailed (.recipeNotFound req.product_id))
  | .ok (some recipe) =>
    let recipeYield := recipe.yield_quantity.getD 1
    let recipeYieldUnit := recipe.yield_unit.getD req.target_unit
    match calculateScaleFactor cfg recipeYield recipeYieldUnit
        req.target_quantity req.target_unit with
    | .error e => .error (.calculationFailed e)
    | .ok sf =>
      let ingsE :=
        if req.include_hierarchy then
          expandHierarchicalRecipe env cfg recipe sf req.max_depth.toNat 0 req.precision
        else
          (scaleRecipeIngredients cfg recipe sf req.precision).map
            (fun l => l.map ExpIngredient.leaf)
      match ingsE with
      | .error e => .error (.calculationFailed e)
      | .ok ings =>
        .ok
          { product_id := req.product_id
            product_name := ((recipe.product.map ProductInfo.name).getD "")
            target_quantity := req.target_quantity
            target_unit := req.target_unit
            scale_factor := pyRound sf 6
            original_yield := recipeYield
            original_yield_unit := recipeYieldUnit
            ingredients := ings
            calculation_metadata :=
              { include_hierarchy := req.include_hierarchy
                max_depth := req.max_depth
                precision :=
                  match req.precision with
                  | some p => if p = 0 then cfg.precision_places else p
                  | none => cfg.precision_places
                ingredient_count := ings.length
                algorithm_version := "v1.0" }
            cached := false }

/-- Model of `calculate_recipe`.  The cache lookup (lines 304-319) runs
before the `try:` block, so an exception it raises propagates to the
caller unwrapped (`cacheFailure`); a cache hit is returned with
`cached = True`; the cache write (lines 367-376) runs inside the `try:`
block, so its exception is wrapped as `CalculationError`
(`calculationFailed (cacheFailure ...)`).  Returns the outcome and the
cache store state. -/
def calculateRecipe {σ : Type} (M : CacheOps σ) (env : Env)
    (cfg : CalcConfig) (st : σ) (req : CalcRequest) :
    Except CalcErr CalcResult × σ :=
  if cfg.cache_enabled then
    let key := generateCacheKey req.product_id req.target_quantity
      req.target_unit req.include_hierarchy req.max_depth
    match M.get st key with
    | .error m => (.error (.cacheFailure m), st)
    | .ok (some cachedResult) => (.ok { cachedResult with cached := true }, st)
    | .ok none =>
      match computeResult env cfg req with
      | .error e => (.error e, st)
      | .ok result =>
        match M.set st key result with
        | .error m => (.error (.calculationFailed (.cacheFailure m)), st)
        | .ok st2 => (.ok result, st2)
  else
    match computeResult env cfg req with
    | .error e => (.error e, st)
    | .ok result => (.ok result, st)

/-! ## `calculate_batch` (calculation_service.py lines 400-450) -/

/-- A per-item failure record (`error_info`, lines 426-431); `error`
keeps the caught exception value (source: `str(e)` and
`type(e).__name__`). -/
structure BatchErrorInfo where
  index : ℕ
  product_id : String
  error : CalcErr
deriving Repr

/-- The `summary` dict of the batch result, minus the wall-clock timing
fields. -/
structure BatchSummary where
  total_requests : ℕ
  successful : ℕ
  failed : ℕ
  errors : List BatchErrorInfo
deriving Repr

structure BatchResult where
  results : List CalcResult
  summary : BatchSummary
deriving Repr

/-- The loop of `calculate_batch`: each item runs through
`calculate_recipe` (threading the shared cache store); any exception is
caught, recorded with the item's index and product id, and the loop
continues. -/
def calculateBatchAux {σ : Type} (M : CacheOps σ) (env : Env)
    (cfg : CalcConfig) : σ → ℕ → List CalcRequest →
    List CalcResult × List BatchErrorInfo × σ
  | st, _, [] => ([], [], st)
  | st, i, req :: rest =>
    match calculateRecipe M env cfg st req with
    | (.ok res, st2) =>
      let tail := calculateBatchAux M env cfg st2 (i + 1) rest
      (res :: tail.1, tail.2.1, tail.2.2)
    | (.error e, st2) =>
      let tail := calculateBatchAux M env cfg st2 (i + 1) rest
      (tail.1, ⟨i, req.product_id, e⟩ :: tail.2.1, tail.2.2)

/-- Model of `calculate_batch`. -/
def calculateBatch {σ : Type} (M : CacheOps σ) (env : Env)
    (cfg : CalcConfig) (st : σ) (reqs : List CalcRequest) : BatchResult :=
  let out := calculateBatchAux M env cfg st 0 reqs
  { results := out.1
    summary :=
      { total_requests := reqs.length
        successful := out.1.length
        failed := out.2.1.length
        errors := out.2.1 } }

/-! ## GraphStore (recipe-service)

The Python layer (`recipe_repository.py`: `create`, `update`,
`_update_dependencies`) rebuilds the `RecipeDependency` rows inside one
transaction and rolls the whole operation back when a
`CircularDependencyError` is raised; the cycle detection itself lives in a
PostgreSQL trigger/stored function that is not part of the Python sources
(the unit tests call it "the database trigger").  The definitions below
are therefore modelled from the spec, section 4.1. -/

namespace GraphStore

/-- Modelled from the spec: the graph-relevant state of the store — for
each product with an active recipe, that recipe's ingredient product ids
(§3: nodes = products, edges = A → B when A's active recipe lists B).
The missing database schema keys active recipes by product. -/
abbrev Store := List (ℕ × List ℕ)

/-- The ingredient product ids of `p`'s active recipe ([] when `p` has
none). -/
def ingredientsOf (s : Store) (p : ℕ) : List ℕ :=
  (List.lookup p s).getD []

/-- The dependency edge relation of the stored graph. -/
def Edge (s : Store) (a b : ℕ) : Prop :=
  b ∈ ingredientsOf s a

instance (s : Store) (a b : ℕ) : Decidable (Edge s a b) := by
  unfold Edge; infer_instance

/-- All product ids mentioned by the store (recipe products and their
ingredients); the reachability search can restrict itself to paths inside
this list. -/
def mentioned (s : Store) : List ℕ :=
  s.flatMap (fun e => e.1 :: e.2)

/-- Fuel bound that certainly dominates the length of any duplicate-free
path through the stored graph. -/
def searchBound (s : Store) : ℕ :=
  (mentioned s).length + 1

/-- Modelled from the spec: the depth-first reachability search of §4.1
("breadth-first/depth-first reachability search ... over existing
DependencyEdge rows"), returning a witnessing path of product ids
(`a` first, `b` last) when `b` is reachable from `a` in at most `fuel`
steps. -/
def findPath (s : Store) : ℕ → ℕ → ℕ → Option (List ℕ)
  | 0, a, b => if a = b then some [a] else none
  | n + 1, a, b =>
    if a = b then some [a]
    else (ingredientsOf s a).findSome? (fun c => (findPath s n c b).map (a :: ·))

/-- Modelled from the spec: the error of §4.1, "a
`CircularDependencyDetected` error identifies the offending path
(sequence of product ids)". -/
inductive UpsertErr where
  | circularDependencyDetected (path : List ℕ)
deriving Repr, DecidableEq

/-- Replace the active recipe of product `p` (create or update). -/
def setRecipe (s : Store) (p : ℕ) (ings : List ℕ) : Store :=
  (p, ings) :: s.filter (fun e => e.1 ≠ p)

/-- Modelled from the spec, §4.1: `upsert_recipe` replaces the ingredient
edge set of `p`'s active recipe within one atomic operation.  A direct
self-reference is rejected unconditionally; otherwise a reachability
search from each new ingredient over the existing edges rejects the
mutation when the recipe's own product is reachable (the mutation would
close a cycle), reporting the full offending cycle `p :: path`.  On
rejection nothing is stored. -/
def upsertRecipe (s : Store) (p : ℕ) (ings : List ℕ) :
    Except UpsertErr Store :=
  if p ∈ ings then
    .error (.circularDependencyDetected [p, p])
  else
    match ings.findSome? (fun i => (findPath s (searchBound s) i p).map (p :: ·)) with
    | some path => .error (.circularDependencyDetected path)
    | none => .ok (setRecipe s p ings)

/-- One mutation step as observed by the store's clients: an accepted
upsert installs the new graph, a rejected one is rolled back and leaves
the stored graph unchanged. -/
def stepMutation (s : Store) (m : ℕ × List ℕ) : Store :=
  match upsertRecipe s m.1 m.2 with
  | .ok s2 => s2
  | .error _ => s

/-- A sequence of recipe mutations applied through the store. -/
def applyMutations (s : Store) (ms : List (ℕ × List ℕ)) : Store :=
  ms.foldl stepMutation s

/-- Predicate `IsPath s a l b`: `l` is the list of successive nodes of a directed
path from `a` to `b` (excluding `a` itself), following dependency edges. -/
def IsPath (s : Store) : ℕ → List ℕ → ℕ → Prop
  | a, [], b => a = b
  | a, c :: l, b => Edge s a c ∧ IsPath s c l b

/-- The stored graph is acyclic: no product depends on itself through one
or more dependency edges. -/
def Acyclic (s : Store) : Prop :=
  ∀ p, ¬ Relation.TransGen (Edge s) p p

end GraphStore

/-! ## Derived observations on expansion results -/

/- Nesting height of an expanded entry: 0 for an entry without
`sub_ingredients`, one more than the height of the sub list otherwise. -/
mutual

def ExpIngredient.height : ExpIngredient → ℕ
  | .leaf _ => 0
  | .node _ subs _ => ExpIngredient.heightList subs + 1

def ExpIngredient.heightList : List ExpIngredient → ℕ
  | [] => 0
  | e :: rest => max e.height (ExpIngredient.heightList rest)

end

/-- The cache key `calculate_recipe` derives from a request (lines
305-309): exactly five request fields are passed — `precision` is not
among them. -/
def requestCacheKey (req : CalcRequest) : CacheKeyData :=
  generateCacheKey req.product_id req.target_quantity req.target_unit
    req.include_hierarchy req.max_depth

/-! ## Concrete fixtures (used by witnesses and counterexamples) -/

/-- The default configuration (`CalculationService.__init__` with the
default app config). -/
def cfgDefault : CalcConfig := {}

/-- The default configuration with result caching disabled
(`ENABLE_RESULT_CACHING = False`, as in the testing config). -/
def cfgNoCache : CalcConfig := { cache_enabled := false }

/-- The gram-based fixture recipe of the repository's unit tests:
yield 1000 gram, flour 600 gram, sugar 400 gram. -/
def recCakeBatter : RecipeData :=
  { product := some { name := "Cake Batter", ptype := "standard" }
    yield_quantity := some 1000
    yield_unit := some "gram"
    ingredients :=
      [ { product_id := "flour", product_name := "Flour", quantity := 600,
          unit := "gram", order := 1 }
      , { product_id := "sugar", product_name := "Sugar", quantity := 400,
          unit := "gram", order := 2 } ] }

/-- An environment where only product `batter` has a recipe. -/
def envSimple : Env :=
  { fetchRecipe := fun pid =>
      if pid = "batter" then .ok (some recCakeBatter) else .ok none }

/-- A three-level environment: `bread` is made from the semi-product
`dough`, `dough` from the semi-product `starter`, `starter` from
`flour`. -/
def recStarter : RecipeData :=
  { product := some { name := "Starter", ptype := "semi-product" }
    yield_quantity := some 100
    yield_unit := some "gram"
    ingredients :=
      [ { product_id := "flour", product_name := "Flour", quantity := 80,
          unit := "gram", order := 1 } ] }

def recDough : RecipeData :=
  { product := some { name := "Dough", ptype := "semi-product" }
    yield_quantity := some 500
    yield_unit := some "gram"
    ingredients :=
      [ { product_id := "starter", product_name := "Starter", quantity := 300,
          unit := "gram", order := 1 } ] }

def recBread : RecipeData :=
  { product := some { name := "Bread", ptype := "standard" }
    yield_quantity := some 1
    yield_unit := some "piece"
    ingredients :=
      [ { product_id := "dough", product_name := "Dough", quantity := 500,
          unit := "gram", order := 1 } ] }

def envBread : Env :=
  { fetchRecipe := fun pid =>
      if pid = "bread" then .ok (some recBread)
      else if pid = "dough" then .ok (some recDough)
      else if pid = "starter" then .ok (some recStarter)
      else .ok none }

/-- A deliberately corrupted environment containing a dependency cycle:
semi-products `alpha` and `beta` each list the other as an ingredient. -/
def recAlpha : RecipeData :=
  { product := some { name := "Alpha", ptype := "semi-product" }
    yield_quantity := some 1
    yield_unit := some "gram"
    ingredients :=
      [ { product_id := "beta", product_name := "Beta", quantity := 1,
          unit := "gram", order := 1 } ] }

def recBeta : RecipeData :=
  { product := some { name := "Beta", ptype := "semi-product" }
    yield_quantity := some 1
    yield_unit := some "gram"
    ingredients :=
      [ { product_id := "alpha", product_name := "Alpha", quantity := 1,
          unit := "gram", order := 1 } ] }

def envCyclic : Env :=
  { fetchRecipe := fun pid =>
      if pid = "alpha" then .ok (some recAlpha)
      else if pid = "beta" then .ok (some recBeta)
      else .ok none }

/-- An association-list cache store behaving normally (every read and
write succeeds). -/
def assocCache : CacheOps (List (CacheKeyData × CalcResult)) :=
  { get := fun st k => .ok (List.lookup k st)
    set := fun st k v => .ok ((k, v) :: st) }

/-- A cache store whose backing connection is down: every read and write
raises. -/
def downCache : CacheOps Unit :=
  { get := fun _ _ => .error "redis connection refused"
    set := fun _ _ _ => .error "redis connection refused" }

/-- A cake-batter request matching the fixture recipe: 500 gram target. -/
def reqBatter : CalcRequest :=
  { product_id := "batter", target_quantity := 500, target_unit := "gram" }

/-- A request for the cake-batter recipe (yield unit `gram`) in the
non-matching unit `piece`. -/
def reqMismatch : CalcRequest :=
  { product_id := "batter", target_quantity := 100, target_unit := "piece" }

/-- The entries listed under an entry's `sub_ingredients` key ([] for an
entry without the key). -/
def ExpIngredient.subEntries : ExpIngredient → List ExpIngredient
  | .leaf _ => []
  | .node _ subs _ => subs

/-! # Theorems -/

/-! ## Rounding arithmetic -/

theorem roundHalfUpInt_of_nonneg {q : ℚ} (h : 0 ≤ q) :
    roundHalfUpInt q = ⌊q + 1/2⌋ := by
  simp [roundHalfUpInt, h]

theorem abs_roundHalfEvenInt_sub_le (q : ℚ) :
    |(roundHalfEvenInt q : ℚ) - q| ≤ 1/2 := by
  have h0 : ((⌊q⌋ : ℤ) : ℚ) ≤ q := Int.floor_le q
  have h1 : q < (⌊q⌋ : ℤ) + 1 := Int.lt_floor_add_one q
  unfold roundHalfEvenInt
  split
  · rw [abs_le]; constructor <;> [linarith; linarith]
  · split
    · rw [abs_le]; push_cast; constructor <;> linarith
    · split <;> (rw [abs_le]; push_cast; constructor <;> linarith)

theorem abs_pyRound_sub_le (q : ℚ) (n : ℕ) :
    |pyRound q n - q| ≤ 1 / (2 * 10 ^ n) := by
  have hp : (0 : ℚ) < 10 ^ n := by positivity
  have h := abs_roundHalfEvenInt_sub_le (q * 10 ^ n)
  have heq : pyRound q n - q = ((roundHalfEvenInt (q * 10 ^ n) : ℚ) - q * 10 ^ n) / 10 ^ n := by
    unfold pyRound
    field_simp
    ring
  rw [heq, abs_div, abs_of_pos hp]
  rw [div_le_iff₀ hp]
  calc |(roundHalfEvenInt (q * 10 ^ n) : ℚ) - q * 10 ^ n| ≤ 1/2 := h
    _ = 1 / (2 * 10 ^ n) * 10 ^ n := by field_simp

theorem roundQuantity_piece_formula (cfg : CalcConfig) (q : ℚ)
    (po : Option ℤ) (hq : 0 ≤ q) :
    roundQuantity cfg q "piece" po =
      (if 1 ≤ q then ((⌊q + 1/2⌋ : ℤ) : ℚ) else ((⌊10 * q + 1/2⌋ : ℤ) : ℚ) / 10) := by
  have hpiece : roundQuantity cfg q "piece" po =
      if 1 ≤ q then quantizeHalfUp q 0 else quantizeHalfUp q 1 := by
    simp [roundQuantity]
  rw [hpiece]
  by_cases hc : 1 ≤ q
  · rw [if_pos hc, if_pos hc]
    unfold quantizeHalfUp
    rw [roundHalfUpInt_of_nonneg (q := q * 10 ^ (0 : ℕ)) (by simpa using hq)]
    norm_num
  · rw [if_neg hc, if_neg hc]
    unfold quantizeHalfUp
    rw [roundHalfUpInt_of_nonneg (q := q * 10 ^ (1 : ℕ)) (by positivity)]
    have h10 : q * 10 ^ (1 : ℕ) = 10 * q := by ring
    rw [h10]
    norm_num

/-- Claim C4: For every non-negative quantity `q` with the discrete
(`piece`) unit and any precision argument, `_round_quantity` returns `q`
rounded half-up to the nearest integer when `q ≥ 1` and half-up to the
nearest `0.1` when `q < 1`; in particular `1.4 → 1`, `1.5 → 2`,
`0.14 → 0.1` and `0.15 → 0.2`. -/
theorem piece_rounding_half_up (cfg : CalcConfig) (q : ℚ) (po : Option ℤ)
    (hq : 0 ≤ q) :
    roundQuantity cfg q "piece" po =
      (if 1 ≤ q then ((⌊q + 1/2⌋ : ℤ) : ℚ) else ((⌊10 * q + 1/2⌋ : ℤ) : ℚ) / 10) ∧
    roundQuantity cfg (14/10) "piece" po = 1 ∧
    roundQuantity cfg (15/10) "piece" po = 2 ∧
    roundQuantity cfg (14/100) "piece" po = 1/10 ∧
    roundQuantity cfg (15/100) "piece" po = 2/10 := by
  refine ⟨roundQuantity_piece_formula cfg q po hq, ?_, ?_, ?_, ?_⟩ <;>
    rw [roundQuantity_piece_formula cfg _ po (by norm_num)] <;> norm_num

/-- Witness for C4 at concrete inputs. -/
theorem piece_rounding_half_up_witness :
    roundQuantity cfgDefault (14/10) "piece" none = 1 ∧
    roundQuantity cfgDefault (15/100) "piece" (some 0) = 2/10 := by
  refine ⟨(piece_rounding_half_up cfgDefault (14/10) none (by norm_num)).2.1, ?_⟩
  exact (piece_rounding_half_up cfgDefault (15/100) (some 0) (by norm_num)).2.2.2.2

/-- Claim C10: `_round_quantity` is total over its unit argument: every
unit string other than `piece` — `milliliter`, `liter`, `kilogram` and
unrecognized strings alike — takes the continuous (`gram`) rounding
branch at the given precision and yields a value (the embedding is a
total function; the source branch raises no exception). -/
theorem round_quantity_nonpiece_gram_rule (cfg : CalcConfig) (q : ℚ)
    (u : String) (p : Option ℤ) (h : u ≠ "piece") :
    roundQuantity cfg q u p = roundGram q (p.getD cfg.precision_places) ∧
    roundQuantity cfg q "milliliter" p = roundGram q (p.getD cfg.precision_places) ∧
    roundQuantity cfg q "liter" p = roundGram q (p.getD cfg.precision_places) ∧
    roundQuantity cfg q "kilogram" p = roundGram q (p.getD cfg.precision_places) ∧
    roundQuantity cfg q "furlong" p = roundGram q (p.getD cfg.precision_places) := by
  refine ⟨?_, ?_, ?_, ?_, ?_⟩ <;> simp [roundQuantity, h]

/-- Witness for C10 at a concrete input. -/
theorem round_quantity_nonpiece_gram_rule_witness :
    roundQuantity cfgDefault (1234567/10000) "liter" none =
      roundGram (1234567/10000) 3 := by
  exact (round_quantity_nonpiece_gram_rule cfgDefault (1234567/10000) "liter" none
    (by decide)).1

/-! ## Inversion lemmas for `calculate_recipe` -/

theorem calculateScaleFactor_ok (cfg : CalcConfig) (y t : ℚ) (u : String)
    (hy : 0 < y) (ht : 0 < t)
    (hmin : cfg.min_scale_factor ≤ t / y)
    (hmax : t / y ≤ cfg.max_scale_factor) :
    calculateScaleFactor cfg y u t u = .ok (t / y) := by
  have hsf0 : 0 < t / y := div_pos ht hy
  simp [calculateScaleFactor, validateScaleFactor, not_le.mpr hy, not_le.mpr ht,
    not_le.mpr hsf0, not_lt.mpr hmax, not_lt.mpr hmin]

theorem computeResult_ok_scale_factor (env : Env) (cfg : CalcConfig)
    (req : CalcRequest) (recipe : RecipeData) (y sf : ℚ) (u : String)
    (hfetch : env.fetchRecipe req.product_id = .ok (some recipe))
    (hyq : recipe.yield_quantity = some y)
    (hyu : recipe.yield_unit = some u)
    (hu : req.target_unit = u)
    (hsf : calculateScaleFactor cfg y u req.target_quantity u = .ok sf) :
    ∀ res, computeResult env cfg req = .ok res →
      res.scale_factor = pyRound sf 6 ∧ res.cached = false := by
  intro res h
  unfold computeResult at h
  rw [hfetch] at h
  simp only [hyq, hyu, Option.getD_some] at h
  rw [hu, hsf] at h
  simp only [] at h
  split at h
  · exact absurd h (by simp)
  · rw [Except.ok.injEq] at h
    subst h
    exact ⟨rfl, rfl⟩

theorem calculateRecipe_ok_computeResult {σ : Type} (M : CacheOps σ)
    (env : Env) (cfg : CalcConfig) (st : σ) (req : CalcRequest)
    (res : CalcResult) (st2 : σ)
    (hmiss : cfg.cache_enabled = true →
      M.get st (requestCacheKey req) = .ok none)
    (h : calculateRecipe M env cfg st req = (.ok res, st2)) :
    computeResult env cfg req = .ok res := by
  unfold requestCacheKey at hmiss
  by_cases hc : cfg.cache_enabled = true
  · specialize hmiss hc
    simp only [calculateRecipe, if_pos hc, hmiss] at h
    split at h
    · simp at h
    · rename_i result hcr
      split at h
      · simp at h
      · rw [Prod.mk.injEq, Except.ok.injEq] at h
        rw [hcr, h.1]
  · simp only [calculateRecipe, if_neg hc] at h
    split at h
    · simp at h
    · rename_i result hcr
      rw [Prod.mk.injEq, Except.ok.injEq] at h
      rw [hcr, h.1]

/-- Claim C2: For every recipe with a positive yield and every request with
a positive target quantity in the recipe's yield unit whose ratio lies in
the configured `[min_scale, max_scale]` window, the scale factor is
`target_quantity / yield_quantity`: `_calculate_scale_factor` returns the
exact ratio, and any result `calculate_recipe` returns (when the cache
does not interfere) reports it rounded to 6 places, hence within
`5·10⁻⁷` of the exact ratio. -/
theorem scale_factor_eq_ratio {σ : Type} (M : CacheOps σ) (env : Env)
    (cfg : CalcConfig) (st : σ) (req : CalcRequest) (recipe : RecipeData)
    (y : ℚ) (u : String)
    (hfetch : env.fetchRecipe req.product_id = .ok (some recipe))
    (hyq : recipe.yield_quantity = some y)
    (hyu : recipe.yield_unit = some u)
    (hy : 0 < y) (ht : 0 < req.target_quantity)
    (hu : req.target_unit = u)
    (hmin : cfg.min_scale_factor ≤ req.target_quantity / y)
    (hmax : req.target_quantity / y ≤ cfg.max_scale_factor)
    (hmiss : cfg.cache_enabled = true →
      M.get st (requestCacheKey req) = .ok none) :
    calculateScaleFactor cfg y u req.target_quantity u =
      .ok (req.target_quantity / y) ∧
    (∀ res st2, calculateRecipe M env cfg st req = (.ok res, st2) →
      res.scale_factor = pyRound (req.target_quantity / y) 6) ∧
    |pyRound (req.target_quantity / y) 6 - req.target_quantity / y| ≤
      1 / 2000000 := by
  have hsf := calculateScaleFactor_ok cfg y req.target_quantity u hy ht hmin hmax
  refine ⟨hsf, ?_, ?_⟩
  · intro res st2 h
    have hcr := calculateRecipe_ok_computeResult M env cfg st req res st2 hmiss h
    exact (computeResult_ok_scale_factor env cfg req recipe y _ u hfetch hyq hyu
      hu hsf res hcr).1
  · have := abs_pyRound_sub_le (req.target_quantity / y) 6
    calc |pyRound (req.target_quantity / y) 6 - req.target_quantity / y| ≤
        1 / (2 * 10 ^ (6 : ℕ)) := this
      _ = 1 / 2000000 := by norm_num

/-- Witness for C2: the unit-test fixture (yield 1000 gram, target 500
gram) gives scale factor `0.5`. -/
theorem scale_factor_eq_ratio_witness :
    calculateScaleFactor cfgDefault 1000 "gram" 500 "gram" = .ok (1/2) ∧
    (∀ res st2,
      calculateRecipe assocCache envSimple cfgDefault [] reqBatter = (.ok res, st2) →
      res.scale_factor = pyRound (1/2) 6) := by
  have h := scale_factor_eq_ratio assocCache envSimple cfgDefault []
    reqBatter recCakeBatter 1000 "gram" rfl rfl rfl (by norm_num)
    (by norm_num [reqBatter]) rfl (by norm_num [reqBatter, cfgDefault])
    (by norm_num [reqBatter, cfgDefault]) (fun _ => rfl)
  have h500 : (500 : ℚ) / 1000 = 1/2 := by norm_num
  refine ⟨?_, ?_⟩
  · have := h.1
    rw [show reqBatter.target_quantity = (500 : ℚ) from rfl] at this
    rw [h500] at this
    exact this
  · intro res st2 hres
    have := h.2.1 res st2 hres
    rw [show reqBatter.target_quantity = (500 : ℚ) from rfl, h500] at this
    exact this

/-! ## C3: unit mismatch -/

theorem calculateScaleFactor_mismatch_invalid (cfg : CalcConfig) (y t : ℚ)
    (u tu : String) (hne : u ≠ tu) :
    ∃ e, calculateScaleFactor cfg y u t tu = .error e ∧
      e.isInvalidInputError = true := by
  unfold calculateScaleFactor
  by_cases h1 : y ≤ 0
  · exact ⟨.invalidInputOriginalNonpositive y, by rw [if_pos h1], rfl⟩
  · by_cases h2 : t ≤ 0
    · exact ⟨.invalidInputTargetNonpositive t, by rw [if_neg h1, if_pos h2], rfl⟩
    · exact ⟨.invalidInputUnitMismatch u tu, by rw [if_neg h1, if_neg h2, if_pos hne], rfl⟩

/-- Claim C3, amended: For every recipe whose stored yield unit differs
from the request's target unit, `calculate_recipe` never returns a scaled
result and never silently converts: `_calculate_scale_factor` raises an
`InvalidInputError`, but the blanket `except Exception` handler of
`calculate_recipe` re-wraps it, so the error the caller of `calculate`
sees is a generic `CalculationError` (`calculationFailed`) carrying the
invalid-input error, not an `InvalidInputError` itself. -/
theorem unit_mismatch_never_scales {σ : Type} (M : CacheOps σ) (env : Env)
    (cfg : CalcConfig) (st : σ) (req : CalcRequest) (recipe : RecipeData)
    (u : String)
    (hfetch : env.fetchRecipe req.product_id = .ok (some recipe))
    (hyu : recipe.yield_unit = some u)
    (hne : u ≠ req.target_unit)
    (hmiss : cfg.cache_enabled = true →
      M.get st (requestCacheKey req) = .ok none) :
    (∃ e, computeResult env cfg req = .error (.calculationFailed e) ∧
      e.isInvalidInputError = true) ∧
    (∀ res st2, calculateRecipe M env cfg st req ≠ (.ok res, st2)) := by
  obtain ⟨e, he, hinv⟩ := calculateScaleFactor_mismatch_invalid cfg
    (recipe.yield_quantity.getD 1) req.target_quantity u req.target_unit hne
  have hcr : computeResult env cfg req = .error (.calculationFailed e) := by
    unfold computeResult
    rw [hfetch]
    simp only [hyu, Option.getD_some]
    rw [he]
  refine ⟨⟨e, hcr, hinv⟩, ?_⟩
  intro res st2 h
  have := calculateRecipe_ok_computeResult M env cfg st req res st2 hmiss h
  rw [hcr] at this
  exact absurd this (by simp)

/-- Witness for C3 (amended) at a concrete input. -/
theorem unit_mismatch_never_scales_witness :
    ∃ e, computeResult envSimple cfgDefault reqMismatch =
        .error (.calculationFailed e) ∧ e.isInvalidInputError = true := by
  exact (unit_mismatch_never_scales assocCache envSimple cfgDefault []
    reqMismatch recCakeBatter "gram" rfl rfl (by decide) (fun _ => rfl)).1

/-- Counterexample to claim C3: At a concrete mismatched request the error
surfaced by `calculate_recipe` is the re-wrapped `CalculationError`, not
an `InvalidInputError`, so the claim "calculate fails with an
InvalidInput error" is false as stated. -/
theorem unit_mismatch_error_is_wrapped :
    (calculateRecipe assocCache envSimple cfgDefault [] reqMismatch).1 =
      .error (.calculationFailed (.invalidInputUnitMismatch "gram" "piece")) ∧
    CalcErr.isInvalidInputError
      (.calculationFailed (.invalidInputUnitMismatch "gram" "piece")) = false := by
  exact ⟨rfl, rfl⟩

/-! ## C9: cache failures -/

/-- Claim C9, amended: Cache failures during `calculate_recipe` are not
swallowed: with caching enabled, a cache read failure aborts the
calculation and propagates to the caller as the raw cache error
(`cache.get` runs before the `try:` block), and a cache write failure
aborts an otherwise successful calculation, surfacing wrapped as a
`CalculationError`; in neither case is the cache-miss result returned. -/
theorem cache_failures_propagate {σ : Type} (M : CacheOps σ) (env : Env)
    (cfg : CalcConfig) (st : σ) (req : CalcRequest)
    (hcache : cfg.cache_enabled = true) :
    (∀ m, M.get st (requestCacheKey req) = .error m →
      calculateRecipe M env cfg st req = (.error (.cacheFailure m), st)) ∧
    (∀ m res, M.get st (requestCacheKey req) = .ok none →
      computeResult env cfg req = .ok res →
      M.set st (requestCacheKey req) res = .error m →
      calculateRecipe M env cfg st req =
        (.error (.calculationFailed (.cacheFailure m)), st)) := by
  unfold requestCacheKey
  constructor
  · intro m hget
    simp only [calculateRecipe, if_pos hcache, hget]
  · intro m res hget hcr hset
    simp only [calculateRecipe, if_pos hcache, hget, hcr, hset]

/-- Witness for C9 (amended): the concrete failing cache store. -/
theorem cache_failures_propagate_witness :
    calculateRecipe downCache envSimple cfgDefault () reqBatter =
      (.error (.cacheFailure "redis connection refused"), ()) := by
  exact (cache_failures_propagate downCache envSimple cfgDefault () reqBatter
    rfl).1 "redis connection refused" rfl

theorem computeResult_isOk (env : Env) (cfg : CalcConfig) (req : CalcRequest)
    (recipe : RecipeData) (sf : ℚ)
    (hfetch : env.fetchRecipe req.product_id = .ok (some recipe))
    (hsf : calculateScaleFactor cfg (recipe.yield_quantity.getD 1)
      (recipe.yield_unit.getD req.target_unit) req.target_quantity
      req.target_unit = .ok sf)
    (hih : req.include_hierarchy = false)
    (hlen : recipe.ingredients.length ≤ cfg.max_ingredients) :
    (computeResult env cfg req).isOk = true := by
  unfold computeResult
  simp only [hfetch, hsf, hih, Bool.false_eq_true, if_false]
  unfold scaleRecipeIngredients
  rw [if_neg (not_lt.mpr hlen)]
  rfl

theorem calculateRecipe_isOk {σ : Type} (M : CacheOps σ) (env : Env)
    (cfg : CalcConfig) (st : σ) (req : CalcRequest)
    (hmiss : cfg.cache_enabled = true →
      M.get st (requestCacheKey req) = .ok none)
    (hset : ∀ r, (M.set st (requestCacheKey req) r).isOk = true)
    (hok : (computeResult env cfg req).isOk = true) :
    (calculateRecipe M env cfg st req).1.isOk = true := by
  unfold requestCacheKey at hmiss hset
  obtain ⟨res, hres⟩ : ∃ res, computeResult env cfg req = .ok res := by
    cases h : computeResult env cfg req with
    | error e => rw [h] at hok; simp [Except.isOk, Except.toBool] at hok
    | ok r => exact ⟨r, rfl⟩
  by_cases hc : cfg.cache_enabled = true
  · obtain ⟨st2, hst2⟩ : ∃ st2,
        M.set st (generateCacheKey req.product_id req.target_quantity
          req.target_unit req.include_hierarchy req.max_depth) res = .ok st2 := by
      cases h : M.set st (generateCacheKey req.product_id req.target_quantity
          req.target_unit req.include_hierarchy req.max_depth) res with
      | error m =>
        have := hset res
        rw [h] at this
        simp [Except.isOk, Except.toBool] at this
      | ok s => exact ⟨s, rfl⟩
    simp only [calculateRecipe, if_pos hc, hmiss hc, hres, hst2]
    rfl
  · simp only [calculateRecipe, if_neg hc, hres]
    rfl

/-- Counterexample to claim C9: At a concrete request that succeeds against a
cache behaving as a miss, the same request against a failing cache does
not return that successful result: the cache read failure is propagated
to the caller. -/
theorem cache_failure_not_miss_equivalent :
    (calculateRecipe downCache envSimple cfgDefault () reqBatter).1 =
      .error (.cacheFailure "redis connection refused") ∧
    (calculateRecipe assocCache envSimple cfgDefault [] reqBatter).1.isOk = true := by
  constructor
  · rfl
  · apply calculateRecipe_isOk assocCache envSimple cfgDefault [] reqBatter
      (fun _ => rfl) (fun _ => rfl)
    apply computeResult_isOk envSimple cfgDefault reqBatter recCakeBatter
      (reqBatter.target_quantity / 1000) rfl ?_ rfl (by decide)
    exact calculateScaleFactor_ok cfgDefault 1000 reqBatter.target_quantity
      "gram" (by norm_num) (by norm_num [reqBatter])
      (by norm_num [reqBatter, cfgDefault]) (by norm_num [reqBatter, cfgDefault])

/-! ## C5: behaviour at the depth limit -/

/-- Claim C5, amended: When the recursion guard fires
(`current_depth >= max_depth`, i.e. remaining budget 0), every ingredient
of the recipe — including one that has an active semi-product recipe of
its own — is still emitted in the result, scaled by the inherited factor,
but as a plain entry carrying no depth-exceeded marker: no
`sub_ingredients`/`expanded`/`depth` keys are set, so it is
indistinguishable from a leaf ingredient (the only depth signal is a
server-side log warning). -/
theorem depth_limit_emits_without_marker (env : Env) (cfg : CalcConfig)
    (recipe : RecipeData) (sf : ℚ) (curd : ℕ) (p : Option ℤ) :
    expandHierarchicalRecipe env cfg recipe sf 0 curd p =
      (scaleRecipeIngredients cfg recipe sf p).map
        (fun l => l.map ExpIngredient.leaf) ∧
    (∀ out, expandHierarchicalRecipe env cfg recipe sf 0 curd p = .ok out →
      out.length = recipe.ingredients.length ∧
      ∀ e ∈ out, e.isExpanded = false) := by
  refine ⟨rfl, ?_⟩
  intro out h
  rw [show expandHierarchicalRecipe env cfg recipe sf 0 curd p =
    (scaleRecipeIngredients cfg recipe sf p).map
      (fun l => l.map ExpIngredient.leaf) from rfl] at h
  unfold scaleRecipeIngredients at h
  split at h
  · simp [Except.map] at h
  · simp only [Except.map, Except.ok.injEq] at h
    subst h
    constructor
    · simp
    · intro e he
      simp only [List.mem_map] at he
      obtain ⟨b, _, hb⟩ := he
      rw [← hb]
      rfl

/-- Counterexample to claim C5: In the three-level environment
bread → dough → starter (both `dough` and `starter` are semi-products
with active recipes), expanding with `max_depth = 1` emits the `starter`
ingredient — which lies past the depth limit and has an unexpanded
recipe — as a plain entry with no depth-exceeded marker, refuting the
claim that such ingredients carry an explicit marker. -/
theorem depth_exceeded_entry_has_no_marker :
    (expandHierarchicalRecipe envBread cfgDefault recBread 1 1 0 none).map
        (fun l => l.map (fun e => (e.isExpanded,
          e.subEntries.map (fun s => (s.base.product_id, s.isExpanded))))) =
      .ok [(true, [("starter", false)])] ∧
    (envBread.fetchRecipe "starter" = .ok (some recStarter) ∧
      (recStarter.product.map ProductInfo.ptype).getD "" = "semi-product") := by
  exact ⟨rfl, rfl, rfl⟩

/-! ## C6: depth-bounded expansion on arbitrary (even cyclic) graphs -/

theorem heightList_map_leaf (l : List ScaledIngredient) :
    ExpIngredient.heightList (l.map ExpIngredient.leaf) = 0 := by
  induction l with
  | nil => rfl
  | cons a l ih =>
    simp only [List.map_cons]
    rw [show ExpIngredient.heightList (ExpIngredient.leaf a :: l.map ExpIngredient.leaf) =
      max (ExpIngredient.height (.leaf a)) (ExpIngredient.heightList (l.map ExpIngredient.leaf))
      from rfl]
    rw [ih]
    rfl

theorem expandHierarchicalRecipe_zero_height (env : Env) (cfg : CalcConfig)
    (recipe : RecipeData) (sf : ℚ) (curd : ℕ) (p : Option ℤ)
    (out : List ExpIngredient)
    (h : expandHierarchicalRecipe env cfg recipe sf 0 curd p = .ok out) :
    ExpIngredient.heightList out = 0 := by
  rw [show expandHierarchicalRecipe env cfg recipe sf 0 curd p =
    (scaleRecipeIngredients cfg recipe sf p).map
      (fun l => l.map ExpIngredient.leaf) from rfl] at h
  cases hs : scaleRecipeIngredients cfg recipe sf p with
  | error e => rw [hs] at h; simp [Except.map] at h
  | ok l =>
    rw [hs] at h
    simp only [Except.map, Except.ok.injEq] at h
    rw [← h]
    exact heightList_map_leaf l

theorem expandOneIngredient_height (n : ℕ) (env : Env) (cfg : CalcConfig)
    (expandSub : RecipeData → ℚ → Except CalcErr (List ExpIngredient))
    (hA : ∀ r s out, expandSub r s = .ok out → ExpIngredient.heightList out ≤ n) :
    ∀ ing sf curd p e,
      expandOneIngredient env cfg expandSub ing sf curd p = .ok e →
      ExpIngredient.height e ≤ n + 1 := by
  intro ing sf curd p e h
  unfold expandOneIngredient at h
  split at h
  · injection h with h2; rw [← h2]; simp [ExpIngredient.height]
  · injection h with h2; rw [← h2]; simp [ExpIngredient.height]
  · split at h
    · split at h
      · rename_i subRecipe heq hsemi hyield
        dsimp only [] at h
        cases hsub : expandSub subRecipe
            ((scaleIngredientD cfg ing sf p).calculated_quantity /
              subRecipe.yield_quantity.getD 1) with
        | error er =>
          rw [hsub] at h
          exact Except.noConfusion h
        | ok subs =>
          rw [hsub] at h
          injection h with h2
          rw [← h2]
          have := hA _ _ _ hsub
          simp only [ExpIngredient.height]
          omega
      · injection h with h2; rw [← h2]; simp [ExpIngredient.height]
    · injection h with h2; rw [← h2]; simp [ExpIngredient.height]

theorem expandIngredientList_height (n : ℕ) (env : Env) (cfg : CalcConfig)
    (expandSub : RecipeData → ℚ → Except CalcErr (List ExpIngredient))
    (hA : ∀ r s out, expandSub r s = .ok out → ExpIngredient.heightList out ≤ n) :
    ∀ ings sf curd p out,
      expandIngredientList env cfg expandSub ings sf curd p = .ok out →
      ExpIngredient.heightList out ≤ n + 1 := by
  intro ings
  induction ings with
  | nil =>
    intro sf curd p out h
    unfold expandIngredientList at h
    injection h with h2
    rw [← h2]
    simp [ExpIngredient.heightList]
  | cons ing rest ih =>
    intro sf curd p out h
    unfold expandIngredientList at h
    cases h1 : expandOneIngredient env cfg expandSub ing sf curd p with
    | error er => rw [h1] at h; exact Except.noConfusion h
    | ok e =>
      rw [h1] at h
      cases h2 : expandIngredientList env cfg expandSub rest sf curd p with
      | error er => rw [h2] at h; exact Except.noConfusion h
      | ok es =>
        rw [h2] at h
        injection h with h3
        rw [← h3]
        have he := expandOneIngredient_height n env cfg expandSub hA _ _ _ _ _ h1
        have hes := ih _ _ _ _ h2
        rw [show ExpIngredient.heightList (e :: es) =
          max (ExpIngredient.height e) (ExpIngredient.heightList es) from rfl]
        omega

theorem expandHierarchicalRecipe_height :
    ∀ (fuel : ℕ) (env : Env) (cfg : CalcConfig) (recipe : RecipeData)
      (sf : ℚ) (curd : ℕ) (p : Option ℤ) (out : List ExpIngredient),
      expandHierarchicalRecipe env cfg recipe sf fuel curd p = .ok out →
      ExpIngredient.heightList out ≤ fuel := by
  intro fuel
  induction fuel with
  | zero =>
    intro env cfg recipe sf curd p out h
    exact le_of_eq (expandHierarchicalRecipe_zero_height env cfg recipe sf curd p out h)
  | succ n ih =>
    intro env cfg recipe sf curd p out h
    rw [show expandHierarchicalRecipe env cfg recipe sf (n + 1) curd p =
      expandIngredientList env cfg
        (fun subRecipe subScaleFactor =>
          expandHierarchicalRecipe env cfg subRecipe subScaleFactor n (curd + 1) p)
        recipe.ingredients sf curd p from rfl] at h
    exact expandIngredientList_height n env cfg _
      (fun r s out2 h2 => ih env cfg r s (curd + 1) p out2 h2)
      recipe.ingredients sf curd p out h

/-- Claim C6: Hierarchical expansion is depth-bounded on every input graph,
including a cyclic one: the expansion is a total function (the embedding
is structurally recursive on the remaining budget `max_depth -
current_depth`, which each recursive call strictly decreases), and any
result it produces nests at most `max_depth` levels — in particular never
past `max(caller max_depth, ceiling)` for any ceiling.  A cyclic graph
therefore has its branch cut at the depth bound rather than looping or
overflowing. -/
theorem expansion_depth_bounded (env : Env) (cfg : CalcConfig)
    (maxDepth : ℕ) (recipe : RecipeData) (sf : ℚ) (p : Option ℤ)
    (out : List ExpIngredient)
    (h : expandHierarchicalRecipe env cfg recipe sf maxDepth 0 p = .ok out) :
    ExpIngredient.heightList out ≤ maxDepth ∧
    ∀ ceiling : ℕ, ExpIngredient.heightList out ≤ max maxDepth ceiling := by
  have hb := expandHierarchicalRecipe_height maxDepth env cfg recipe sf 0 p out h
  exact ⟨hb, fun ceiling => le_trans hb (le_max_left _ _)⟩

/-- Witness for C6: expansion over the deliberately cyclic
`alpha ↔ beta` environment still terminates with a result of height at
most the requested depth 3. -/
theorem expansion_depth_bounded_witness :
    ∃ out, expandHierarchicalRecipe envCyclic cfgDefault recAlpha 1 3 0 none =
        .ok out ∧ ExpIngredient.heightList out ≤ 3 := by
  obtain ⟨out, hout⟩ : ∃ out,
      expandHierarchicalRecipe envCyclic cfgDefault recAlpha 1 3 0 none = .ok out :=
    ⟨_, rfl⟩
  exact ⟨out, hout,
    (expansion_depth_bounded envCyclic cfgDefault 3 recAlpha 1 none out hout).1⟩

/-! ## C8: the cache fingerprint -/

/-- Claim C8, amended: The cache fingerprint is a deterministic function
of exactly five request fields — `product_id`, `target_quantity`,
`target_unit`, `include_hierarchy`, `max_depth` — and a constant version
tag; `precision` is not hashed.  Two requests agreeing on those five
fields always produce the same fingerprint (whatever their precisions),
and changing any one of the five changes the hashed key data (hence, MD5
collisions aside, the fingerprint). -/
theorem cache_key_exactly_five_fields (r1 r2 : CalcRequest) :
    requestCacheKey r1 = requestCacheKey r2 ↔
      (r1.product_id = r2.product_id ∧
       r1.target_quantity = r2.target_quantity ∧
       r1.target_unit = r2.target_unit ∧
       r1.include_hierarchy = r2.include_hierarchy ∧
       r1.max_depth = r2.max_depth) := by
  unfold requestCacheKey generateCacheKey
  constructor
  · intro h
    injection h with h1 h2 h3 h4 h5 h6
    exact ⟨h1, h2, h3, h4, h5⟩
  · rintro ⟨h1, h2, h3, h4, h5⟩
    rw [h1, h2, h3, h4, h5]

/-- Counterexample to claim C8: Two requests identical except for `precision`
(0 vs the default 3 places) produce the same cache key, refuting the
claim that the fingerprint depends on `precision`. -/
theorem cache_key_ignores_precision :
    requestCacheKey { reqBatter with precision := some 0 } =
      requestCacheKey { reqBatter with precision := some 3 } ∧
    ({ reqBatter with precision := some 0 } : CalcRequest).precision ≠
      ({ reqBatter with precision := some 3 } : CalcRequest).precision := by
  exact ⟨rfl, by decide⟩

/-! ## C7: batch isolation and summary -/

theorem calculateRecipe_error_state {σ : Type} (M : CacheOps σ) (env : Env)
    (cfg : CalcConfig) (st : σ) (req : CalcRequest) (e : CalcErr) (st2 : σ)
    (h : calculateRecipe M env cfg st req = (.error e, st2)) : st2 = st := by
  by_cases hc : cfg.cache_enabled = true
  · simp only [calculateRecipe, if_pos hc] at h
    split at h
    · rw [Prod.mk.injEq] at h; exact h.2.symm
    · rw [Prod.mk.injEq] at h; exact absurd h.1 (by simp)
    · split at h
      · rw [Prod.mk.injEq] at h; exact h.2.symm
      · split at h
        · rw [Prod.mk.injEq] at h; exact h.2.symm
        · rw [Prod.mk.injEq] at h; exact absurd h.1 (by simp)
  · simp only [calculateRecipe, if_neg hc] at h
    split at h
    · rw [Prod.mk.injEq] at h; exact h.2.symm
    · rw [Prod.mk.injEq] at h; exact absurd h.1 (by simp)

theorem calculateBatchAux_cons_ok {σ : Type} (M : CacheOps σ) (env : Env)
    (cfg : CalcConfig) (st : σ) (i : ℕ) (req : CalcRequest)
    (rest : List CalcRequest) (res : CalcResult) (st2 : σ)
    (h : calculateRecipe M env cfg st req = (.ok res, st2)) :
    calculateBatchAux M env cfg st i (req :: rest) =
      (res :: (calculateBatchAux M env cfg st2 (i + 1) rest).1,
       (calculateBatchAux M env cfg st2 (i + 1) rest).2.1,
       (calculateBatchAux M env cfg st2 (i + 1) rest).2.2) := by
  conv_lhs => rw [calculateBatchAux]
  rw [h]

theorem calculateBatchAux_cons_error {σ : Type} (M : CacheOps σ) (env : Env)
    (cfg : CalcConfig) (st : σ) (i : ℕ) (req : CalcRequest)
    (rest : List CalcRequest) (e : CalcErr) (st2 : σ)
    (h : calculateRecipe M env cfg st req = (.error e, st2)) :
    calculateBatchAux M env cfg st i (req :: rest) =
      ((calculateBatchAux M env cfg st2 (i + 1) rest).1,
       ⟨i, req.product_id, e⟩ :: (calculateBatchAux M env cfg st2 (i + 1) rest).2.1,
       (calculateBatchAux M env cfg st2 (i + 1) rest).2.2) := by
  conv_lhs => rw [calculateBatchAux]
  rw [h]

theorem calculateBatchAux_lengths {σ : Type} (M : CacheOps σ) (env : Env)
    (cfg : CalcConfig) :
    ∀ (reqs : List CalcRequest) (st : σ) (i : ℕ),
      (calculateBatchAux M env cfg st i reqs).1.length +
        (calculateBatchAux M env cfg st i reqs).2.1.length = reqs.length := by
  intro reqs
  induction reqs with
  | nil => intro st i; rfl
  | cons req rest ih =>
    intro st i
    unfold calculateBatchAux
    cases h : calculateRecipe M env cfg st req with
    | mk outcome st2 =>
      cases outcome with
      | ok res =>
        dsimp only []
        have := ih st2 (i + 1)
        simp only [List.length_cons]
        omega
      | error e =>
        dsimp only []
        have := ih st2 (i + 1)
        simp only [List.length_cons]
        omega

theorem calculateBatchAux_errors {σ : Type} (M : CacheOps σ) (env : Env)
    (cfg : CalcConfig) :
    ∀ (reqs : List CalcRequest) (st : σ) (i : ℕ) (er : BatchErrorInfo),
      er ∈ (calculateBatchAux M env cfg st i reqs).2.1 →
      i ≤ er.index ∧ er.index - i < reqs.length ∧
        (reqs[er.index - i]?).map CalcRequest.product_id = some er.product_id := by
  intro reqs
  induction reqs with
  | nil => intro st i er h; exact absurd h (by simp [calculateBatchAux])
  | cons req rest ih =>
    intro st i er h
    unfold calculateBatchAux at h
    cases hc : calculateRecipe M env cfg st req with
    | mk outcome st2 =>
      rw [hc] at h
      cases outcome with
      | ok res =>
        dsimp only [] at h
        obtain ⟨h1, h2, h3⟩ := ih st2 (i + 1) er h
        refine ⟨by omega, by simp; omega, ?_⟩
        have hidx : er.index - i = (er.index - (i + 1)) + 1 := by omega
        rw [hidx]
        simpa using h3
      | error e =>
        dsimp only [] at h
        rw [List.mem_cons] at h
        cases h with
        | inl heq =>
          subst heq
          refine ⟨le_refl i, by simp, ?_⟩
          simp
        | inr hmem =>
          obtain ⟨h1, h2, h3⟩ := ih st2 (i + 1) er hmem
          refine ⟨by omega, by simp; omega, ?_⟩
          have hidx : er.index - i = (er.index - (i + 1)) + 1 := by omega
          rw [hidx]
          simpa using h3

theorem calculateBatchAux_results_index_irrel {σ : Type} (M : CacheOps σ)
    (env : Env) (cfg : CalcConfig) :
    ∀ (reqs : List CalcRequest) (st : σ) (i j : ℕ),
      (calculateBatchAux M env cfg st i reqs).1 =
        (calculateBatchAux M env cfg st j reqs).1 ∧
      (calculateBatchAux M env cfg st i reqs).2.2 =
        (calculateBatchAux M env cfg st j reqs).2.2 := by
  intro reqs
  induction reqs with
  | nil => intro st i j; exact ⟨rfl, rfl⟩
  | cons req rest ih =>
    intro st i j
    unfold calculateBatchAux
    cases hc : calculateRecipe M env cfg st req with
    | mk outcome st2 =>
      cases outcome with
      | ok res =>
        dsimp only []
        rw [(ih st2 (i + 1) (j + 1)).1, (ih st2 (i + 1) (j + 1)).2]
        exact ⟨rfl, rfl⟩
      | error e =>
        dsimp only []
        rw [(ih st2 (i + 1) (j + 1)).1, (ih st2 (i + 1) (j + 1)).2]
        exact ⟨rfl, rfl⟩

theorem calculateBatchAux_append {σ : Type} (M : CacheOps σ) (env : Env)
    (cfg : CalcConfig) :
    ∀ (l1 l2 : List CalcRequest) (st : σ) (i : ℕ),
      (calculateBatchAux M env cfg st i (l1 ++ l2)).1 =
        (calculateBatchAux M env cfg st i l1).1 ++
          (calculateBatchAux M env cfg
            (calculateBatchAux M env cfg st i l1).2.2 (i + l1.length) l2).1 := by
  intro l1
  induction l1 with
  | nil =>
    intro l2 st i
    simp [calculateBatchAux]
  | cons req rest ih =>
    intro l2 st i
    have hidx : i + 1 + rest.length = i + (rest.length + 1) := by omega
    cases hc : calculateRecipe M env cfg st req with
    | mk outcome st2 =>
      cases outcome with
      | ok res =>
        rw [show (req :: rest) ++ l2 = req :: (rest ++ l2) from rfl,
          calculateBatchAux_cons_ok M env cfg st i req (rest ++ l2) res st2 hc,
          calculateBatchAux_cons_ok M env cfg st i req rest res st2 hc]
        dsimp only []
        rw [ih l2 st2 (i + 1), List.cons_append, List.length_cons, hidx]
      | error e =>
        rw [show (req :: rest) ++ l2 = req :: (rest ++ l2) from rfl,
          calculateBatchAux_cons_error M env cfg st i req (rest ++ l2) e st2 hc,
          calculateBatchAux_cons_error M env cfg st i req rest e st2 hc]
        dsimp only []
        rw [ih l2 st2 (i + 1), List.length_cons, hidx]

/-- Claim C7: `calculate_batch` never aborts on an item failure: for a
batch of `N` requests it reports `total_requests = N`,
`successful = N - failed` (the number of returned results),
`failed` = the number of per-item error records, each error record
carrying a valid index and the product id of the request at that index;
and a failing item leaves the shared cache state untouched, so removing
it from the batch leaves every other item's result unchanged. -/
theorem batch_isolates_failures {σ : Type} (M : CacheOps σ) (env : Env)
    (cfg : CalcConfig) :
    (∀ (st : σ) (reqs : List CalcRequest),
      (calculateBatch M env cfg st reqs).summary.total_requests = reqs.length ∧
      (calculateBatch M env cfg st reqs).summary.successful =
        (calculateBatch M env cfg st reqs).results.length ∧
      (calculateBatch M env cfg st reqs).summary.failed =
        (calculateBatch M env cfg st reqs).summary.errors.length ∧
      (calculateBatch M env cfg st reqs).summary.successful +
        (calculateBatch M env cfg st reqs).summary.failed = reqs.length ∧
      (∀ er ∈ (calculateBatch M env cfg st reqs).summary.errors,
        er.index < reqs.length ∧
        (reqs[er.index]?).map CalcRequest.product_id = some er.product_id)) ∧
    (∀ (st : σ) (pre post : List CalcRequest) (r : CalcRequest) (e : CalcErr),
      (calculateRecipe M env cfg
        (calculateBatchAux M env cfg st 0 pre).2.2 r).1 = .error e →
      (calculateBatch M env cfg st (pre ++ r :: post)).results =
        (calculateBatch M env cfg st (pre ++ post)).results) := by
  constructor
  · intro st reqs
    refine ⟨rfl, rfl, rfl, ?_, ?_⟩
    · exact calculateBatchAux_lengths M env cfg reqs st 0
    · intro er her
      have := calculateBatchAux_errors M env cfg reqs st 0 er her
      simpa using this
  · intro st pre post r e herr
    show (calculateBatchAux M env cfg st 0 (pre ++ r :: post)).1 =
      (calculateBatchAux M env cfg st 0 (pre ++ post)).1
    rw [calculateBatchAux_append M env cfg pre (r :: post) st 0,
      calculateBatchAux_append M env cfg pre post st 0]
    congr 1
    set st1 := (calculateBatchAux M env cfg st 0 pre).2.2 with hst1
    cases hc : calculateRecipe M env cfg st1 r with
    | mk outcome st2 =>
      cases outcome with
      | ok res => rw [hc] at herr; exact absurd herr (by simp)
      | error e2 =>
        have hstate : st2 = st1 :=
          calculateRecipe_error_state M env cfg st1 r e2 st2 hc
        rw [calculateBatchAux_cons_error M env cfg st1 (0 + pre.length) r post
          e2 st2 hc]
        dsimp only []
        rw [hstate]
        exact (calculateBatchAux_results_index_irrel M env cfg post st1
          (0 + pre.length + 1) (0 + pre.length)).1

/-- Witness for C7: a concrete three-item batch (a failing
mismatched-unit request followed by two valid ones) reports three
requests, and dropping the failing item does not change the results. -/
theorem batch_isolates_failures_witness :
    (calculateBatch assocCache envSimple cfgDefault []
      [reqMismatch, reqBatter, reqBatter]).summary.total_requests = 3 ∧
    (calculateBatch assocCache envSimple cfgDefault []
        [reqMismatch, reqBatter, reqBatter]).results =
      (calculateBatch assocCache envSimple cfgDefault []
        [reqBatter, reqBatter]).results := by
  constructor
  · exact (batch_isolates_failures assocCache envSimple cfgDefault).1 [] _ |>.1
  · exact (batch_isolates_failures assocCache envSimple cfgDefault).2 []
      [] [reqBatter, reqBatter] reqMismatch
      (.calculationFailed (.invalidInputUnitMismatch "gram" "piece"))
      (by rfl)

/-! ## C1: the dependency graph invariant -/

namespace GraphStore

theorem lookup_some_mem {s : Store} {q : ℕ} {L : List ℕ}
    (h : List.lookup q s = some L) : (q, L) ∈ s := by
  induction s with
  | nil => simp [List.lookup] at h
  | cons e rest ih =>
    cases e with
    | mk k v =>
      rw [List.lookup_cons] at h
      by_cases hk : q = k
      · simp only [hk, beq_self_eq_true] at h
        injection h with h2
        rw [hk, ← h2]
        exact List.mem_cons_self _ _
      · have hbeq : (q == k) = false := beq_false_of_ne hk
        rw [hbeq] at h
        exact List.mem_cons_of_mem _ (ih h)

theorem edge_target_mentioned {s : Store} {x c : ℕ} (h : Edge s x c) :
    c ∈ mentioned s := by
  unfold Edge ingredientsOf at h
  cases hl : List.lookup x s with
  | none => rw [hl] at h; simp at h
  | some L =>
    rw [hl] at h
    simp only [Option.getD_some] at h
    rw [mentioned, List.mem_flatMap]
    exact ⟨(x, L), lookup_some_mem hl, List.mem_cons_of_mem _ h⟩

theorem ingredientsOf_setRecipe_self (s : Store) (p : ℕ) (ings : List ℕ) :
    ingredientsOf (setRecipe s p ings) p = ings := by
  unfold ingredientsOf setRecipe
  rw [List.lookup_cons]
  simp

theorem lookup_filter_ne (s : Store) {q p : ℕ} (h : q ≠ p) :
    List.lookup q (s.filter (fun e => e.1 ≠ p)) = List.lookup q s := by
  induction s with
  | nil => rfl
  | cons e rest ih =>
    cases e with
    | mk k v =>
      by_cases hk : k = p
      · have hpk : decide (((k, v) : ℕ × List ℕ).1 ≠ p) = false := by
          simp [hk]
        rw [List.filter_cons, hpk]
        simp only [Bool.false_eq_true, if_false]
        rw [ih, List.lookup_cons]
        have hbeq : (q == k) = false := beq_false_of_ne (hk ▸ h)
        rw [hbeq]
      · have hpk : decide (((k, v) : ℕ × List ℕ).1 ≠ p) = true := by
          simp [hk]
        rw [List.filter_cons, hpk]
        simp only [if_true]
        rw [List.lookup_cons, List.lookup_cons]
        cases hbeq : q == k with
        | true => rfl
        | false => exact ih

theorem ingredientsOf_setRecipe_ne (s : Store) {q p : ℕ} (ings : List ℕ)
    (h : q ≠ p) :
    ingredientsOf (setRecipe s p ings) q = ingredientsOf s q := by
  unfold ingredientsOf setRecipe
  rw [List.lookup_cons]
  have hbeq : (q == p) = false := beq_false_of_ne h
  rw [hbeq, lookup_filter_ne s h]

theorem edge_setRecipe_ne {s : Store} {p q c : ℕ} {ings : List ℕ}
    (h : q ≠ p) : Edge (setRecipe s p ings) q c ↔ Edge s q c := by
  unfold Edge
  rw [ingredientsOf_setRecipe_ne s ings h]

/-! ### Soundness and completeness of the bounded path search -/

theorem findPath_sound (s : Store) :
    ∀ (n : ℕ) (a b : ℕ) (l : List ℕ), findPath s n a b = some l →
      ∃ l2, l = a :: l2 ∧ IsPath s a l2 b := by
  intro n
  induction n with
  | zero =>
    intro a b l h
    unfold findPath at h
    split at h
    · injection h with h2
      rename_i hab
      exact ⟨[], h2.symm, hab⟩
    · exact absurd h (by simp)
  | succ m ih =>
    intro a b l h
    unfold findPath at h
    split at h
    · injection h with h2
      rename_i hab
      exact ⟨[], h2.symm, hab⟩
    · obtain ⟨c, hc, hfc⟩ := List.exists_of_findSome?_eq_some h
      cases hfp : findPath s m c b with
      | none => rw [hfp] at hfc; simp at hfc
      | some lc =>
        rw [hfp] at hfc
        simp only [Option.map_some'] at hfc
        injection hfc with hfc2
        obtain ⟨lc2, hlc2, hpath⟩ := ih c b lc hfp
        refine ⟨lc, hfc2.symm, ?_⟩
        rw [hlc2]
        exact ⟨hc, hpath⟩

theorem findSome?_isSome_of_mem {α β : Type} {f : α → Option β} {x : α}
    {l : List α} (hx : x ∈ l) (hf : (f x).isSome) :
    (l.findSome? f).isSome := by
  induction l with
  | nil => simp at hx
  | cons a rest ih =>
    rw [List.findSome?_cons]
    cases hfa : f a with
    | some b => simp
    | none =>
      rw [List.mem_cons] at hx
      cases hx with
      | inl heq => rw [heq, hfa] at hf; simp at hf
      | inr hmem => exact ih hmem

theorem findPath_isSome_of_isPath (s : Store) :
    ∀ (l : List ℕ) (a b : ℕ) (n : ℕ), IsPath s a l b → l.length ≤ n →
      (findPath s n a b).isSome := by
  intro l
  induction l with
  | nil =>
    intro a b n hpath _
    have hab : a = b := hpath
    cases n with
    | zero => unfold findPath; rw [if_pos hab]; simp
    | succ m => unfold findPath; rw [if_pos hab]; simp
  | cons c rest ih =>
    intro a b n hpath hlen
    obtain ⟨hedge, hrest⟩ := hpath
    cases n with
    | zero => simp at hlen
    | succ m =>
      unfold findPath
      split
      · simp
      · have hm : rest.length ≤ m := by simpa using hlen
        have hsub := ih c b m hrest hm
        apply findSome?_isSome_of_mem hedge
        cases hfp : findPath s m c b with
        | none => rw [hfp] at hsub; simp at hsub
        | some lc => simp

theorem isPath_suffix (s : Store) :
    ∀ (l1 : List ℕ) (a x b : ℕ) (l2 : List ℕ),
      IsPath s a (l1 ++ x :: l2) b → IsPath s x l2 b := by
  intro l1
  induction l1 with
  | nil =>
    intro a x b l2 h
    exact h.2
  | cons c rest ih =>
    intro a x b l2 h
    exact ih c x b l2 h.2

theorem isPath_subset_mentioned (s : Store) :
    ∀ (l : List ℕ) (a b : ℕ), IsPath s a l b → l ⊆ mentioned s := by
  intro l
  induction l with
  | nil => intro a b _; simp
  | cons c rest ih =>
    intro a b h
    intro x hx
    rw [List.mem_cons] at hx
    cases hx with
    | inl heq => rw [heq]; exact edge_target_mentioned h.1
    | inr hmem => exact ih c b h.2 hmem

/-- Every path can be shortened to one whose node list (start included)
has no duplicates, using only nodes of the original path. -/
theorem isPath_shorten (s : Store) :
    ∀ (n : ℕ) (l : List ℕ) (a b : ℕ), l.length = n → IsPath s a l b →
      ∃ l2, IsPath s a l2 b ∧ (a :: l2).Nodup ∧ l2.length ≤ l.length ∧
        l2 ⊆ l := by
  intro n
  induction n using Nat.strong_induction_on with
  | _ n ihn =>
    intro l a b hn hpath
    cases l with
    | nil =>
      exact ⟨[], hpath, by simp, by simp, by simp⟩
    | cons c rest =>
      obtain ⟨hedge, hrest⟩ := hpath
      have hlen : rest.length < n := by rw [← hn]; simp
      obtain ⟨m, hm, hmnodup, hmlen, hmsub⟩ :=
        ihn rest.length hlen rest c b rfl hrest
      by_cases ha : a ∈ c :: m
      · rw [List.mem_cons] at ha
        cases ha with
        | inl hac =>
          refine ⟨m, ?_, ?_, ?_, ?_⟩
          · rw [hac]; exact hm
          · rw [hac]; exact hmnodup
          · calc m.length ≤ rest.length := hmlen
              _ ≤ (c :: rest).length := by simp
          · exact fun x hx => List.mem_cons_of_mem c (hmsub hx)
        | inr ham =>
          obtain ⟨m1, m2, hsplit⟩ := List.append_of_mem ham
          have hsubpath : IsPath s a m2 b := by
            apply isPath_suffix s m1 c a b m2
            rw [← hsplit]
            exact hm
          have hsublist : (a :: m2).Sublist (c :: m) := by
            have h1 : (a :: m2).Sublist m := by
              rw [hsplit]
              exact List.sublist_append_right m1 (a :: m2)
            exact h1.cons c
          refine ⟨m2, hsubpath, hsublist.nodup hmnodup, ?_, ?_⟩
          · have : m2.length < m.length := by
              rw [hsplit]
              simp
              omega
            calc m2.length ≤ m.length := le_of_lt this
              _ ≤ rest.length := hmlen
              _ ≤ (c :: rest).length := by simp
          · intro x hx
            have : x ∈ m := by
              rw [hsplit]
              exact List.mem_append_right m1 (List.mem_cons_of_mem a hx)
            exact List.mem_cons_of_mem c (hmsub this)
      · refine ⟨c :: m, ⟨hedge, hm⟩, ?_, ?_, ?_⟩
        · rw [List.nodup_cons]
          exact ⟨ha, hmnodup⟩
        · simpa using hmlen
        · intro x hx
          rw [List.mem_cons] at hx
          cases hx with
          | inl heq => rw [heq]; exact List.mem_cons_self c rest
          | inr hmem => exact List.mem_cons_of_mem c (hmsub hmem)

theorem reflTransGen_iff_isPath (s : Store) (a b : ℕ) :
    Relation.ReflTransGen (Edge s) a b ↔ ∃ l, IsPath s a l b := by
  constructor
  · intro h
    induction h using Relation.ReflTransGen.head_induction_on with
    | refl => exact ⟨[], rfl⟩
    | head hedge _ ih =>
      obtain ⟨l, hl⟩ := ih
      exact ⟨_ :: l, hedge, hl⟩
  · rintro ⟨l, hl⟩
    induction l generalizing a with
    | nil =>
      have hab : a = b := hl
      rw [hab]
    | cons c rest ih =>
      exact Relation.ReflTransGen.head hl.1 (ih c hl.2)

/-- Completeness of the bounded search: with fuel `searchBound s`, every
genuinely reachable target is found. -/
theorem findPath_complete {s : Store} {a b : ℕ}
    (h : Relation.ReflTransGen (Edge s) a b) :
    (findPath s (searchBound s) a b).isSome := by
  obtain ⟨l, hl⟩ := (reflTransGen_iff_isPath s a b).mp h
  obtain ⟨l2, hl2, hnodup, _, _⟩ := isPath_shorten s l.length l a b rfl hl
  have hsub : l2 ⊆ mentioned s := isPath_subset_mentioned s l2 a b hl2
  have hnodup2 : l2.Nodup := (List.nodup_cons.mp hnodup).2
  have hlen : l2.length ≤ (mentioned s).length := by
    calc l2.length = l2.toFinset.card := (List.toFinset_card_of_nodup hnodup2).symm
      _ ≤ (mentioned s).toFinset.card := by
          apply Finset.card_le_card
          intro x hx
          simp only [List.mem_toFinset] at *
          exact hsub hx
      _ ≤ (mentioned s).length := List.toFinset_card_le (mentioned s)
  exact findPath_isSome_of_isPath s l2 a b (searchBound s) hl2
    (by unfold searchBound; omega)

theorem findPath_none_not_reach {s : Store} {a b : ℕ}
    (h : findPath s (searchBound s) a b = none) :
    ¬ Relation.ReflTransGen (Edge s) a b := by
  intro hreach
  have := findPath_complete hreach
  rw [h] at this
  simp at this

theorem upsert_ok_inv {s : Store} {p : ℕ} {ings : List ℕ} {s2 : Store}
    (h : upsertRecipe s p ings = .ok s2) :
    s2 = setRecipe s p ings ∧ p ∉ ings ∧
      ∀ i ∈ ings, findPath s (searchBound s) i p = none := by
  unfold upsertRecipe at h
  split at h
  · exact absurd h (by simp)
  · rename_i hp
    split at h
    · exact absurd h (by simp)
    · rename_i hnone
      injection h with h2
      refine ⟨h2.symm, hp, ?_⟩
      intro i hi
      have := List.findSome?_eq_none_iff.mp hnone i hi
      exact Option.map_eq_none'.mp this

theorem upsert_error_inv {s : Store} {p : ℕ} {ings : List ℕ} {e : UpsertErr}
    (h : upsertRecipe s p ings = .error e) :
    stepMutation s (p, ings) = s ∧
      ((p ∈ ings ∧ e = .circularDependencyDetected [p, p]) ∨
        ∃ i l, i ∈ ings ∧ IsPath s i l p ∧
          e = .circularDependencyDetected (p :: i :: l)) := by
  refine ⟨by unfold stepMutation; rw [h], ?_⟩
  unfold upsertRecipe at h
  split at h
  · rename_i hp
    injection h with h2
    exact Or.inl ⟨hp, h2.symm⟩
  · rename_i hp
    split at h
    · rename_i path hsome
      injection h with h2
      obtain ⟨i, hi, hfi⟩ := List.exists_of_findSome?_eq_some hsome
      cases hfp : findPath s (searchBound s) i p with
      | none => rw [hfp] at hfi; simp at hfi
      | some l =>
        rw [hfp] at hfi
        simp only [Option.map_some'] at hfi
        injection hfi with hfi2
        obtain ⟨l2, hl2, hpath⟩ := findPath_sound s (searchBound s) i p l hfp
        refine Or.inr ⟨i, l2, hi, hpath, ?_⟩
        rw [← h2, ← hfi2, hl2]
    · exact absurd h (by simp)

/-- Transfer of reachability in the updated store: a path of the updated
graph either already existed, or it passes through the freshly written
recipe of `p`, in which case its source reaches `p` over the old edges
and some new ingredient of `p` continues to the target. -/
theorem reach_setRecipe_cases (s : Store) (p : ℕ) (ings : List ℕ) :
    ∀ a b, Relation.ReflTransGen (Edge (setRecipe s p ings)) a b →
      Relation.ReflTransGen (Edge s) a b ∨
      (Relation.ReflTransGen (Edge s) a p ∧
        ∃ c ∈ ings, Relation.ReflTransGen (Edge (setRecipe s p ings)) c b) := by
  intro a b h
  induction h using Relation.ReflTransGen.head_induction_on with
  | refl => exact Or.inl Relation.ReflTransGen.refl
  | head hedge htail ih =>
    rename_i x c
    by_cases hx : x = p
    · subst hx
      have hc : c ∈ ings := by
        have := hedge
        unfold Edge at this
        rw [ingredientsOf_setRecipe_self] at this
        exact this
      exact Or.inr ⟨Relation.ReflTransGen.refl, c, hc, htail⟩
    · have hxe : Edge s x c := (edge_setRecipe_ne hx).mp hedge
      cases ih with
      | inl hold => exact Or.inl (Relation.ReflTransGen.head hxe hold)
      | inr hnew =>
        exact Or.inr ⟨Relation.ReflTransGen.head hxe hnew.1, hnew.2⟩

/-- An accepted upsert preserves acyclicity. -/
theorem upsert_ok_acyclic {s : Store} {p : ℕ} {ings : List ℕ} {s2 : Store}
    (hacyclic : Acyclic s) (h : upsertRecipe s p ings = .ok s2) :
    Acyclic s2 := by
  obtain ⟨hs2, hp, hno⟩ := upsert_ok_inv h
  subst hs2
  intro q hcyc
  obtain ⟨c, hqc, hcq⟩ := Relation.TransGen.head'_iff.mp hcyc
  have hnoreach : ∀ i ∈ ings, ¬ Relation.ReflTransGen (Edge s) i p :=
    fun i hi => findPath_none_not_reach (hno i hi)
  by_cases hq : q = p
  · subst hq
    have hc : c ∈ ings := by
      have := hqc
      unfold Edge at this
      rw [ingredientsOf_setRecipe_self] at this
      exact this
    cases reach_setRecipe_cases s q ings c q hcq with
    | inl hold => exact hnoreach c hc hold
    | inr hnew => exact hnoreach c hc hnew.1
  · have hqe : Edge s q c := (edge_setRecipe_ne hq).mp hqc
    cases reach_setRecipe_cases s p ings c q hcq with
    | inl hold =>
      exact hacyclic q (Relation.TransGen.head'_iff.mpr ⟨c, hqe, hold⟩)
    | inr hnew =>
      obtain ⟨hcp, c2, hc2, hc2q⟩ := hnew
      have hqp : Relation.ReflTransGen (Edge s) q p :=
        Relation.ReflTransGen.head hqe hcp
      cases reach_setRecipe_cases s p ings c2 q hc2q with
      | inl hold2 =>
        exact hnoreach c2 hc2 (Relation.ReflTransGen.trans hold2 hqp)
      | inr hnew2 =>
        exact hnoreach c2 hc2 hnew2.1

theorem stepMutation_acyclic {s : Store} (hacyclic : Acyclic s)
    (m : ℕ × List ℕ) : Acyclic (stepMutation s m) := by
  unfold stepMutation
  cases h : upsertRecipe s m.1 m.2 with
  | ok s2 => exact upsert_ok_acyclic hacyclic h
  | error e => exact hacyclic

theorem applyMutations_acyclic {s : Store} (hacyclic : Acyclic s)
    (ms : List (ℕ × List ℕ)) : Acyclic (applyMutations s ms) := by
  induction ms generalizing s with
  | nil => exact hacyclic
  | cons m rest ih =>
    exact ih (stepMutation_acyclic hacyclic m)

/-- Claim C1: Starting from any acyclic stored graph, every sequence of
recipe mutations processed by the store keeps the dependency graph
acyclic at all times: an accepted upsert yields an acyclic graph, and a
mutation that would close a cycle is rejected with a
`CircularDependencyDetected` error naming an offending product-id path
(a genuine dependency chain from a new ingredient back to the recipe's
own product, or the direct self-reference) while the stored graph is
left unchanged. -/
theorem graph_mutations_preserve_acyclicity (s : GraphStore.Store)
    (hacyclic : GraphStore.Acyclic s) :
    (∀ ms, GraphStore.Acyclic (GraphStore.applyMutations s ms)) ∧
    (∀ p ings s2, GraphStore.upsertRecipe s p ings = .ok s2 →
      GraphStore.Acyclic s2) ∧
    (∀ p ings e, GraphStore.upsertRecipe s p ings = .error e →
      GraphStore.stepMutation s (p, ings) = s ∧
      ((p ∈ ings ∧ e = .circularDependencyDetected [p, p]) ∨
        ∃ i l, i ∈ ings ∧ GraphStore.IsPath s i l p ∧
          e = .circularDependencyDetected (p :: i :: l))) := by
  refine ⟨applyMutations_acyclic hacyclic, ?_, ?_⟩
  · intro p ings s2 h
    exact upsert_ok_acyclic hacyclic h
  · intro p ings e h
    exact upsert_error_inv h

theorem acyclic_nil : Acyclic ([] : Store) := by
  intro p hp
  obtain ⟨c, hc, _⟩ := Relation.TransGen.head'_iff.mp hp
  unfold Edge ingredientsOf at hc
  simp [List.lookup] at hc

/-- Witness for C1: from the empty store, installing 1 → 2 is accepted,
and the mutation 2 → 1 that would close the cycle is rejected with the
offending path 2 → 1 → 2 while the stored graph stays unchanged. -/
theorem graph_mutations_preserve_acyclicity_witness :
    GraphStore.Acyclic
      (GraphStore.applyMutations [] [(1, [2]), (2, [1])]) ∧
    GraphStore.applyMutations [] [(1, [2]), (2, [1])] = [(1, [2])] ∧
    GraphStore.upsertRecipe [(1, [2])] 2 [1] =
      .error (.circularDependencyDetected [2, 1, 2]) := by
  refine ⟨(graph_mutations_preserve_acyclicity [] acyclic_nil).1
    [(1, [2]), (2, [1])], ?_, ?_⟩
  · rfl
  · rfl

end GraphStore

end RecipeMgmt
